import Mathlib

/-!
Verification development for the JavaFX support extension's
cross-reference resolution engine and FXML formatter.

Documents are modelled as lists of lines, each line a list of characters
(`List Char`).  JavaScript string and regular-expression operations used by
the source are embedded as executable Lean functions on character lists:
each embedded function mirrors one function of the TypeScript source,
keeping its name.  Machine integers do not occur; all indices are `Nat`.
-/

set_option maxHeartbeats 1000000

namespace JavafxSupport

/-- Character list of a string literal. -/
def str (s : String) : List Char := s.data

/-- Whitespace characters matched by JavaScript `trim` and the regex class
`\s`, restricted to the ASCII whitespace that can occur in the scanned
documents. -/
def jsWS (c : Char) : Bool :=
  c = ' ' || c = '\t' || c = '\n' || c = '\r' || c = '\x0b' || c = '\x0c'

/-- JavaScript `String.prototype.trim` on a character list. -/
def trim (l : List Char) : List Char :=
  ((l.dropWhile jsWS).reverse.dropWhile jsWS).reverse

/-- Scan indices `i, i+1, ..., i+fuel-1` in order and return the first one
satisfying `P`. -/
def firstIdxFrom (P : Nat → Bool) : Nat → Nat → Option Nat
  | _, 0 => none
  | i, fuel+1 => if P i then some i else firstIdxFrom P (i+1) fuel

/-- JavaScript `String.prototype.indexOf` (search for a substring from the
start, returning the first index at which it occurs). -/
def firstIndexOf (needle hay : List Char) : Option Nat :=
  firstIdxFrom (fun p => needle.isPrefixOf (hay.drop p)) 0 (hay.length + 1)

/-- JavaScript `String.prototype.includes`. -/
def containsStr (hay needle : List Char) : Bool := (firstIndexOf needle hay).isSome

/-- Word characters of the JavaScript regex classes `\w` and `\b` (ASCII). -/
def isWordChar (c : Char) : Bool := c.isAlphanum || c = '_'

/-- First character of the identifier class `[a-zA-Z_$]`. -/
def idFirst (c : Char) : Bool := c.isAlpha || c = '_' || c = '$'

/-- Continuation character of the identifier class `[a-zA-Z0-9_$]`. -/
def idRest (c : Char) : Bool := c.isAlphanum || c = '_' || c = '$'

/-- Length of the maximal leading run of characters satisfying `P`. -/
def runLenP (P : Char → Bool) : List Char → Nat
  | [] => 0
  | c :: cs => if P c then runLenP P cs + 1 else 0

/-- JavaScript regex word boundary `\b` between positions `p-1` and `p` of
the line (out-of-range characters count as non-word). -/
def boundaryAt (l : List Char) (p : Nat) : Bool :=
  (if p = 0 then false else isWordChar (l.getD (p-1) ' ')) != isWordChar (l.getD p ' ')

/-- Does the first non-whitespace character at or after position `q` belong
to `cs`?  This is the `\s*X` tail of the member regexes. -/
def afterWsIs (l : List Char) (q : Nat) (cs : List Char) : Bool :=
  cs.contains (l.getD (q + runLenP jsWS (l.drop q)) '\x00')

/-- Full text of a document, as produced by `document.getText()`: the lines
joined by a newline. -/
def docText (doc : List (List Char)) : List Char :=
  List.intercalate [ '\n' ] doc

/-- Indentation string repeated `level` times. -/
def indentRep (indent : List Char) : Nat → List Char
  | 0 => []
  | n+1 => indent ++ indentRep indent n

/-! ## FxmlFormattingEditProvider (src/fxmlFormatter.ts) -/

/-- Line-ending normalisation of `formatXml`: `\r\n` and then a lone `\r`
become `\n`. -/
def normalizeNewlines : List Char → List Char
  | [] => []
  | '\r' :: '\n' :: rest => '\n' :: normalizeNewlines rest
  | '\r' :: rest => '\n' :: normalizeNewlines rest
  | c :: rest => c :: normalizeNewlines rest

/-- Character loop of `FxmlFormattingEditProvider.tokenize`.  The state is
the remaining input, the accumulated `current` text and the `inTag` flag.
The `fuel` argument only makes the recursion structural; it starts at the
input length and never runs out because every step consumes at least one
character. -/
def tokenizeGo : Nat → List Char → List Char → Bool → List (List Char)
  | _, [], current, _ => if trim current = [] then [] else [current]
  | 0, _ :: _, current, _ => if trim current = [] then [] else [current]
  | fuel+1, c :: rest, current, inTag =>
    let s := c :: rest
    if (str "<![CDATA[").isPrefixOf s then
      let pushed := if trim current = [] then [] else [current]
      match firstIndexOf (str "]]>") s with
      | some e => pushed ++ [s.take (e+3)] ++ tokenizeGo fuel (s.drop (e+3)) [] inTag
      | none => pushed ++ pushed ++ tokenizeGo fuel rest (str "<") true
    else if (str "<!--").isPrefixOf s then
      let pushed := if trim current = [] then [] else [current]
      match firstIndexOf (str "-->") s with
      | some e => pushed ++ [s.take (e+3)] ++ tokenizeGo fuel (s.drop (e+3)) [] inTag
      | none => pushed ++ pushed ++ tokenizeGo fuel rest (str "<") true
    else if c = '<' then
      (if trim current = [] then [] else [current]) ++ tokenizeGo fuel rest (str "<") true
    else if c = '>' ∧ inTag = true then
      (current ++ [ '>' ]) :: tokenizeGo fuel rest [] false
    else tokenizeGo fuel rest (current ++ [c]) inTag

/-- `FxmlFormattingEditProvider.tokenize`. -/
def tokenize (xml : List Char) : List (List Char) :=
  tokenizeGo xml.length xml [] false

/-- Formatting options consumed by `formatXml`. -/
structure FormattingOptions where
  insertSpaces : Bool
  tabSize : Nat

/-- Token loop of `FxmlFormattingEditProvider.formatXml`: lay the trimmed
tokens out one per line with stack-depth indentation. -/
def formatLoop (indent : List Char) : Nat → List (List Char) → List (List Char)
  | _, [] => []
  | level, part :: ps =>
    let t := trim part
    if t = [] then formatLoop indent level ps
    else if (str "<?").isPrefixOf t then t :: formatLoop indent level ps
    else if (str "<!--").isPrefixOf t then (indentRep indent level ++ t) :: formatLoop indent level ps
    else if (str "</").isPrefixOf t then
      (indentRep indent (level - 1) ++ t) :: formatLoop indent (level - 1) ps
    else if (str "/>").isSuffixOf t then (indentRep indent level ++ t) :: formatLoop indent level ps
    else if (str "<").isPrefixOf t then
      (indentRep indent level ++ t) ::
        formatLoop indent
          (if !((str "/>").isSuffixOf t) && !((str "<?").isPrefixOf t) then level + 1 else level) ps
    else (indentRep indent level ++ t) :: formatLoop indent level ps

/-- `FxmlFormattingEditProvider.formatXml`. -/
def formatXml (opts : FormattingOptions) (xml : List Char) : List Char :=
  let indent := if opts.insertSpaces then List.replicate opts.tabSize ' ' else [ '\t' ]
  let text := normalizeNewlines xml
  let parts := tokenize text
  let ls := formatLoop indent 0 parts
  let result := List.intercalate [ '\n' ] ls
  if result.getLast? = some '\n' then result else result ++ [ '\n' ]

/-- `FxmlFormattingEditProvider.formatRange` at the text level: `none`
models the empty edit list returned when the formatted text equals the
input. -/
def formatRange (opts : FormattingOptions) (text : List Char) : Option (List Char) :=
  if formatXml opts text = text then none else some (formatXml opts text)

/-! ## ControllerDefinitionProvider (src/fxmlFormatter.ts, second class) -/

/-- Keyword set of `ControllerDefinitionProvider.getMemberNameAtPosition`:
Java reserved words plus the two annotation-marker tokens. -/
def javaKeywords : List (List Char) :=
  [str "public", str "private", str "protected", str "static", str "final", str "void",
   str "class", str "interface", str "extends", str "implements", str "import",
   str "package", str "return", str "new", str "this", str "super", str "if", str "else",
   str "for", str "while", str "do", str "switch", str "case", str "break", str "continue",
   str "try", str "catch", str "finally", str "throw", str "throws", str "synchronized",
   str "abstract", str "native", str "transient", str "volatile", str "strictfp",
   str "FXML", str "Override"]

/-- Backtracking tail of a regex word match: the largest end position
`e ∈ (p, p+k]` carrying a word boundary. -/
def searchEnd (l : List Char) (p : Nat) : Nat → Option Nat
  | 0 => none
  | k+1 => if boundaryAt l (p+k+1) then some (p+k+1) else searchEnd l p k

/-- Attempt of the regex `\b[a-zA-Z_$][a-zA-Z0-9_$]*\b` at position `p`:
if it succeeds, the end position of the match. -/
def attemptAt (l : List Char) (p : Nat) : Option Nat :=
  if boundaryAt l p && idFirst (l.getD p ' ') then
    searchEnd l p (runLenP idRest (l.drop p))
  else none

/-- First match of the word regex at a position `≥ p`, as `(start, end)`. -/
def nextMatchFrom (l : List Char) (p : Nat) : Option (Nat × Nat) :=
  match firstIdxFrom (fun q => (attemptAt l q).isSome) p (l.length - p) with
  | some q => (attemptAt l q).map (fun e => (q, e))
  | none => none

/-- Match loop of `getMemberNameAtPosition`: advance through the word
matches of the line (continuing at each match's end, as the `g`-flagged
regex does) until one covers the cursor; a keyword there yields `none`. -/
def gmnapGo (l : List Char) (charPos : Nat) : Nat → Nat → Option (List Char)
  | _, 0 => none
  | p, fuel+1 =>
    match nextMatchFrom l p with
    | none => none
    | some (s, e) =>
      if charPos ≥ s ∧ charPos < e then
        let w := (l.drop s).take (e - s)
        if w ∈ javaKeywords then none else some w
      else gmnapGo l charPos e fuel

/-- `ControllerDefinitionProvider.getMemberNameAtPosition`. -/
def getMemberNameAtPosition (l : List Char) (charPos : Nat) : Option (List Char) :=
  gmnapGo l charPos 0 (l.length + 1)

/-- Does a trimmed line start with the marker annotation token? -/
def startsFXML (l : List Char) : Bool := (str "@FXML").isPrefixOf (trim l)

/-- Non-blank line that is not an annotation line (the early-stop test of
the backward scan). -/
def stopLine (l : List Char) : Bool :=
  !((trim l).isEmpty) && !((str "@").isPrefixOf (trim l))

/-- `ControllerDefinitionProvider.isFxmlAnnotated`: the current line
contains `@FXML` anywhere, or one of the two preceding lines starts
(trimmed) with `@FXML`, the backward scan stopping at a non-blank
non-annotation line. -/
def isFxmlAnnotated (doc : List (List Char)) (n : Nat) : Bool :=
  if containsStr (doc.getD n []) (str "@FXML") then true
  else if 1 ≤ n then
    let p1 := doc.getD (n-1) []
    if startsFXML p1 then true
    else if stopLine p1 then false
    else if 2 ≤ n then startsFXML (doc.getD (n-2) [])
    else false
  else false

/-- Attempt of the member regex `\bNAME\s*\(` (methods) or
`\bNAME\s*[;=,)]` (fields) at position `p` of a line. -/
def memberPatAt (name : List Char) (isMethod : Bool) (l : List Char) (p : Nat) : Bool :=
  boundaryAt l p && name.isPrefixOf (l.drop p) &&
    afterWsIs l (p + name.length) (if isMethod then [ '(' ] else [ ';', '=', ',', ')' ])

/-- Index of the first member-pattern match on a line (`exec`'s
`match.index`). -/
def structMatchIdx (name : List Char) (isMethod : Bool) (l : List Char) : Option Nat :=
  firstIdxFrom (fun p => memberPatAt name isMethod l p) 0 (l.length + 1)

/-- `ControllerDefinitionProvider.isMethodDeclaration` (the identical
private helper of `FxmlCodeLensProvider` is the same function). -/
def isMethodDeclaration (l name : List Char) : Bool :=
  (structMatchIdx name true l).isSome

/-- Characters of the capture class `[\w.]` of the package regex. -/
def isWordDotChar (c : Char) : Bool := isWordChar c || c = '.'

/-- Attempt of `package\s+([\w.]+)\s*;` at position `q` of the full text,
returning the captured dotted name. -/
def pkgMatchAt (t : List Char) (q : Nat) : Option (List Char) :=
  if (str "package").isPrefixOf (t.drop q) then
    let j := q + 7
    let w := runLenP jsWS (t.drop j)
    if 0 < w then
      let k := j + w
      let r := runLenP isWordDotChar (t.drop k)
      if 0 < r then
        let m := k + r
        let w2 := runLenP jsWS (t.drop m)
        if t.getD (m + w2) ' ' = ';' then some ((t.drop k).take r) else none
      else none
    else none
  else none

/-- First match of the package regex in the text (JavaScript
`text.match(...)` without the `g` flag). -/
def findPackageName (t : List Char) : Option (List Char) :=
  (firstIdxFrom (fun q => (pkgMatchAt t q).isSome) 0 (t.length + 1)).bind (pkgMatchAt t)

/-- Attempt of `class\s+(\w+)` at position `q`, returning the captured
simple class name. -/
def classMatchAt (t : List Char) (q : Nat) : Option (List Char) :=
  if (str "class").isPrefixOf (t.drop q) then
    let j := q + 5
    let w := runLenP jsWS (t.drop j)
    if 0 < w then
      let k := j + w
      let r := runLenP isWordChar (t.drop k)
      if 0 < r then some ((t.drop k).take r) else none
    else none
  else none

/-- First match of the class regex in the text. -/
def findClassName (t : List Char) : Option (List Char) :=
  (firstIdxFrom (fun q => (classMatchAt t q).isSome) 0 (t.length + 1)).bind (classMatchAt t)

/-- `getFullyQualifiedClassName` (shared verbatim by
`ControllerDefinitionProvider` and `FxmlCodeLensProvider`). -/
def getFullyQualifiedClassName (doc : List (List Char)) : Option (List Char) :=
  let t := docText doc
  match findClassName t with
  | none => none
  | some cls =>
    match findPackageName t with
    | some pkg => some (pkg ++ '.' :: cls)
    | none => some cls

/-- Scan a document line by line for the first line containing `needle`,
returning the line index and the needle's first index on that line. -/
def findNeedleInDoc (needle : List Char) (doc : List (List Char)) : Option (Nat × Nat) :=
  match firstIdxFrom (fun i => containsStr (doc.getD i []) needle) 0 doc.length with
  | some i => (firstIndexOf needle (doc.getD i [])).map (fun c => (i, c))
  | none => none

/-- `ControllerDefinitionProvider.findEventHandlerInFxml`: first line
matching `="#NAME"`, position the match index plus 2. -/
def findEventHandlerInFxml (doc : List (List Char)) (methodName : List Char) :
    Option (Nat × Nat) :=
  match findNeedleInDoc ('=' :: '"' :: '#' :: (methodName ++ [ '"' ])) doc with
  | some (i, c) => some (i, c + 2)
  | none => none

/-- `ControllerDefinitionProvider.findFxIdInFxml`: first line matching
`fx:id="NAME"`, position the match index. -/
def findFxIdInFxml (doc : List (List Char)) (fieldName : List Char) : Option (Nat × Nat) :=
  findNeedleInDoc (str "fx:id=\"" ++ fieldName ++ [ '"' ]) doc

/-- Does the markup document's text declare the given controller
(`text.includes('fx:controller="C"')`)? -/
def referencesController (controllerClassName : List Char) (doc : List (List Char)) : Bool :=
  containsStr (docText doc) (str "fx:controller=\"" ++ controllerClassName ++ [ '"' ])

/-- Per-document member search of `findInFxmlFiles`. -/
def searchMemberInFxmlDoc (memberName : List Char) (isMethod : Bool)
    (doc : List (List Char)) : Option (Nat × Nat) :=
  if isMethod then findEventHandlerInFxml doc memberName
  else findFxIdInFxml doc memberName

/-- Document loop of `ControllerDefinitionProvider.findInFxmlFiles`,
carrying the index of the current document in discovery order. -/
def findInFxmlFilesGo (controllerClassName memberName : List Char) (isMethod : Bool) :
    Nat → List (List (List Char)) → Option (Nat × Nat × Nat)
  | _, [] => none
  | i, d :: ds =>
    if referencesController controllerClassName d then
      match searchMemberInFxmlDoc memberName isMethod d with
      | some (ln, ch) => some (i, ln, ch)
      | none => findInFxmlFilesGo controllerClassName memberName isMethod (i+1) ds
    else findInFxmlFilesGo controllerClassName memberName isMethod (i+1) ds

/-- `ControllerDefinitionProvider.findInFxmlFiles` over the markup
documents in discovery order; the result records the document index and
the position inside it. -/
def findInFxmlFiles (controllerClassName memberName : List Char) (isMethod : Bool)
    (fxmlDocs : List (List (List Char))) : Option (Nat × Nat × Nat) :=
  findInFxmlFilesGo controllerClassName memberName isMethod 0 fxmlDocs

/-- `ControllerDefinitionProvider.provideDefinition`: source-side
resolution from a (line, character) cursor in a Java document to a
location in one of the markup documents. -/
def ctrlProvideDefinition (doc : List (List Char)) (line char : Nat)
    (fxmlDocs : List (List (List Char))) : Option (Nat × Nat × Nat) :=
  let currentLine := doc.getD line []
  match getMemberNameAtPosition currentLine char with
  | none => none
  | some memberName =>
    if isFxmlAnnotated doc line then
      let isMethod := isMethodDeclaration currentLine memberName
      match getFullyQualifiedClassName doc with
      | none => none
      | some cn => findInFxmlFiles cn memberName isMethod fxmlDocs
    else none

/-! ## FxmlDefinitionProvider (src/unnamed/part_001) -/

/-- Attempt of `fx:controller\s*=\s*"([^"]+)"` at position `q`: on success
the match length and the captured class name. -/
def ctrlAttrMatchAt (l : List Char) (q : Nat) : Option (Nat × List Char) :=
  if (str "fx:controller").isPrefixOf (l.drop q) then
    let j1 := q + 13 + runLenP jsWS (l.drop (q + 13))
    if l.getD j1 '\x00' = '=' then
      let j3 := j1 + 1 + runLenP jsWS (l.drop (j1 + 1))
      if l.getD j3 '\x00' = '"' then
        let v := runLenP (fun c => c != '"') (l.drop (j3 + 1))
        if 0 < v ∧ l.getD (j3 + 1 + v) '\x00' = '"' then
          some ((j3 + 1 + v + 1) - q, (l.drop (j3 + 1)).take v)
        else none
      else none
    else none
  else none

/-- Attempt of `on\w+\s*=\s*"#(\w+)"` at position `q`. -/
def eventAttrMatchAt (l : List Char) (q : Nat) : Option (Nat × List Char) :=
  if l.getD q '\x00' = 'o' ∧ l.getD (q+1) '\x00' = 'n' then
    let w := runLenP isWordChar (l.drop (q + 2))
    if 0 < w then
      let j1 := q + 2 + w + runLenP jsWS (l.drop (q + 2 + w))
      if l.getD j1 '\x00' = '=' then
        let j2 := j1 + 1 + runLenP jsWS (l.drop (j1 + 1))
        if l.getD j2 '\x00' = '"' ∧ l.getD (j2 + 1) '\x00' = '#' then
          let m := runLenP isWordChar (l.drop (j2 + 2))
          if 0 < m ∧ l.getD (j2 + 2 + m) '\x00' = '"' then
            some ((j2 + 2 + m + 1) - q, (l.drop (j2 + 2)).take m)
          else none
        else none
      else none
    else none
  else none

/-- Attempt of `fx:id\s*=\s*"(\w+)"` at position `q`. -/
def fxIdAttrMatchAt (l : List Char) (q : Nat) : Option (Nat × List Char) :=
  if (str "fx:id").isPrefixOf (l.drop q) then
    let j1 := q + 5 + runLenP jsWS (l.drop (q + 5))
    if l.getD j1 '\x00' = '=' then
      let j2 := j1 + 1 + runLenP jsWS (l.drop (j1 + 1))
      if l.getD j2 '\x00' = '"' then
        let m := runLenP isWordChar (l.drop (j2 + 1))
        if 0 < m ∧ l.getD (j2 + 1 + m) '\x00' = '"' then
          some ((j2 + 1 + m + 1) - q, (l.drop (j2 + 1)).take m)
        else none
      else none
    else none
  else none

/-- Match loop of `FxmlDefinitionProvider.getAttributeValueAtPosition`:
iterate the `g`-flagged regex's matches (each new scan starting at the
previous match's end) and return the captured value of the first match
whose span contains the cursor, both ends inclusive. -/
def attrValueLoop (mAt : Nat → Option (Nat × List Char)) (len charPos : Nat) :
    Nat → Nat → Option (List Char)
  | _, 0 => none
  | p, fuel+1 =>
    match firstIdxFrom (fun q => (mAt q).isSome) p (len + 1 - p) with
    | none => none
    | some q =>
      match mAt q with
      | none => none
      | some (ml, cap) =>
        if charPos ≥ q ∧ charPos ≤ q + ml then some cap
        else attrValueLoop mAt len charPos (q + ml) fuel

/-- `getAttributeValueAtPosition` with the controller-reference pattern. -/
def ctrlAttrValueAt (l : List Char) (charPos : Nat) : Option (List Char) :=
  attrValueLoop (ctrlAttrMatchAt l) l.length charPos 0 (l.length + 2)

/-- `getAttributeValueAtPosition` with the event-handler pattern. -/
def eventAttrValueAt (l : List Char) (charPos : Nat) : Option (List Char) :=
  attrValueLoop (eventAttrMatchAt l) l.length charPos 0 (l.length + 2)

/-- `getAttributeValueAtPosition` with the `fx:id` pattern. -/
def fxIdAttrValueAt (l : List Char) (charPos : Nat) : Option (List Char) :=
  attrValueLoop (fxIdAttrMatchAt l) l.length charPos 0 (l.length + 2)

/-- `FxmlDefinitionProvider.findControllerInDocument`: capture of the
first controller-reference match in the markup document's full text. -/
def findControllerInDocument (doc : List (List Char)) : Option (List Char) :=
  let t := docText doc
  (firstIdxFrom (fun q => (ctrlAttrMatchAt t q).isSome) 0 (t.length + 1)).bind
    (fun q => (ctrlAttrMatchAt t q).map (fun r => r.2))

/-- Relative source path of a qualified class name: dots become path
separators and the source suffix is appended. -/
def classRelPath (className : List Char) : List Char :=
  (className.map (fun c => if c = '.' then '/' else c)) ++ str ".java"

/-- Does a workspace file path match the glob `**/rel`? -/
def fileMatchesGlob (rel p : List Char) : Bool :=
  p = rel || ('/' :: rel).isSuffixOf p

/-- Injected `findFiles` capability: the workspace files whose path
matches `**/rel`, in discovery order. -/
def findFilesRel (rel : List Char) (files : List (List Char × List (List Char))) :
    List (List Char × List (List Char)) :=
  files.filter (fun f => fileMatchesGlob rel f.1)

/-- Last dotted component of a class name (`className.split('.').pop()`,
falling back to the whole name when the last component is empty). -/
def lastDotComponent (className : List Char) : List Char :=
  match (className.splitOn '.').getLast? with
  | some l => if l = [] then className else l
  | none => className

/-- `FxmlDefinitionProvider.findControllerClass`: open the first file at
the qualified name's relative path and jump to its `class <SimpleName>`
line, falling back to the file start. -/
def findControllerClass (className : List Char)
    (javaFiles : List (List Char × List (List Char))) :
    Option (List Char × Nat × Nat) :=
  match (findFilesRel (classRelPath className) javaFiles).head? with
  | none => none
  | some (p, jdoc) =>
    let needle := str "class " ++ lastDotComponent className
    match findNeedleInDoc needle jdoc with
    | some (i, c) => some (p, i, c)
    | none => some (p, 0, 0)

/-- Does a trimmed line start with the `@FXML` marker (the tracking test
of `findMemberInJavaFile` and `provideCodeLenses`)? -/
def isFxmlLine (l : List Char) : Bool := (str "@FXML").isPrefixOf (trim l)

/-- Update of the `fxmlAnnotationLine` tracker at the top of an iteration
of `findMemberInJavaFile`: remember the current line when it starts with
the marker. -/
def updateAnn (annLine : Option Nat) (fx : Bool) (i : Nat) : Option Nat :=
  if fx then some i else annLine

/-- End-of-iteration reset of the tracker: forget the annotation once the
scan has moved more than 2 lines past it. -/
def resetAnn (ann : Option Nat) (i : Nat) : Option Nat :=
  match ann with
  | some a => if i - a > 2 then none else some a
  | none => none

/-- The `fxmlAnnotationLine >= 0 && i - fxmlAnnotationLine <= 2` test. -/
def annOk (ann : Option Nat) (i : Nat) : Bool :=
  match ann with
  | some a => decide (i - a ≤ 2)
  | none => false

/-- Line loop of `FxmlDefinitionProvider.findMemberInJavaFile`: `annLine`
is the `fxmlAnnotationLine` tracker (updated at the top of the iteration,
reset at its end), `best` the first structural match remembered so far; a
structural match within 2 lines of the tracked annotation returns
immediately. -/
def findMemberGo (name : List Char) (isMethod : Bool) :
    List (List Char) → Nat → Option Nat → Option (Nat × Nat) → Option (Nat × Nat)
  | [], _, _, best => best
  | l :: ls, i, annLine, best =>
    match structMatchIdx name isMethod l with
    | some c =>
      if annOk (updateAnn annLine (isFxmlLine l) i) i then some (i, c)
      else findMemberGo name isMethod ls (i+1) (resetAnn (updateAnn annLine (isFxmlLine l) i) i)
        (if best.isSome then best else some (i, c))
    | none => findMemberGo name isMethod ls (i+1) (resetAnn (updateAnn annLine (isFxmlLine l) i) i) best

/-- `FxmlDefinitionProvider.findMemberInJavaFile` on a document's lines. -/
def findMemberInJavaFile (name : List Char) (isMethod : Bool)
    (doc : List (List Char)) : Option (Nat × Nat) :=
  findMemberGo name isMethod doc 0 none none

/-- `FxmlDefinitionProvider.findMethodInController`. -/
def findMethodInController (controllerClassName methodName : List Char)
    (javaFiles : List (List Char × List (List Char))) :
    Option (List Char × Nat × Nat) :=
  match (findFilesRel (classRelPath controllerClassName) javaFiles).head? with
  | none => none
  | some (p, jdoc) =>
    (findMemberInJavaFile methodName true jdoc).map (fun x => (p, x.1, x.2))

/-- `FxmlDefinitionProvider.findFieldInController`. -/
def findFieldInController (controllerClassName fieldName : List Char)
    (javaFiles : List (List Char × List (List Char))) :
    Option (List Char × Nat × Nat) :=
  match (findFilesRel (classRelPath controllerClassName) javaFiles).head? with
  | none => none
  | some (p, jdoc) =>
    (findMemberInJavaFile fieldName false jdoc).map (fun x => (p, x.1, x.2))

/-- `FxmlDefinitionProvider.provideDefinition`: markup-side resolution
from a (line, character) cursor in a markup document to a location
`(path, line, character)` in a workspace source file. -/
def fxmlProvideDefinition (doc : List (List Char)) (line char : Nat)
    (javaFiles : List (List Char × List (List Char))) :
    Option (List Char × Nat × Nat) :=
  let l := doc.getD line []
  let fxIdCheck :=
    match fxIdAttrValueAt l char with
    | some f =>
      match findControllerInDocument doc with
      | some cn => findFieldInController cn f javaFiles
      | none => none
    | none => none
  match ctrlAttrValueAt l char with
  | some cls => findControllerClass cls javaFiles
  | none =>
    match eventAttrValueAt l char with
    | some m =>
      match findControllerInDocument doc with
      | some cn => findMethodInController cn m javaFiles
      | none => fxIdCheck
    | none => fxIdCheck

/-! ## FxmlCodeLensProvider (src/fxmlCodeLensProvider.ts) -/

/-- Keyword blacklist of the method shape in `extractMemberName`. -/
def methodKeywords : List (List Char) :=
  [str "if", str "for", str "while", str "switch", str "catch", str "new", str "return",
   str "class", str "interface"]

/-- Keyword blacklist of the field shape in `extractMemberName`. -/
def fieldKeywords : List (List Char) :=
  [str "public", str "private", str "protected", str "static", str "final", str "void",
   str "class", str "interface", str "extends", str "implements", str "import",
   str "package", str "return", str "new"]

/-- Attempt of `\b(\w+)\s*D` (`D` a delimiter from `delims`) at position
`p`: the captured word run. -/
def shapeNameAt (l : List Char) (delims : List Char) (p : Nat) : Option (List Char) :=
  if boundaryAt l p && isWordChar (l.getD p ' ') then
    let r := runLenP isWordChar (l.drop p)
    if afterWsIs l (p + r) delims then some ((l.drop p).take r) else none
  else none

/-- Capture of the first `\b(\w+)\s*D` match on the line. -/
def shapeName (l : List Char) (delims : List Char) : Option (List Char) :=
  (firstIdxFrom (fun p => (shapeNameAt l delims p).isSome) 0 (l.length + 1)).bind
    (shapeNameAt l delims)

/-- Capture of the method shape `\b(\w+)\s*\(`. -/
def methodShapeName (l : List Char) : Option (List Char) := shapeName l [ '(' ]

/-- Capture of the field shape `\b(\w+)\s*[;=,)]`. -/
def fieldShapeName (l : List Char) : Option (List Char) :=
  shapeName l [ ';', '=', ',', ')' ]

/-- Field-shape fallback of `extractMemberName`. -/
def extractFieldName (l : List Char) : Option (List Char) :=
  match fieldShapeName l with
  | some n => if n ∈ fieldKeywords then none else some n
  | none => none

/-- `FxmlCodeLensProvider.extractMemberName`: try the method shape first,
fall back to the field shape (each filtered by its own blacklist). -/
def extractMemberName (l : List Char) : Option (List Char) :=
  match methodShapeName l with
  | some n => if n ∈ methodKeywords then extractFieldName l else some n
  | none => extractFieldName l

/-- Forward search of `provideCodeLenses` for the member declaration line:
the first of the 3 lines after the annotation line that is non-blank and
not itself an annotation line. -/
def findMemberLineFwd (doc : List (List Char)) (i : Nat) : Option Nat :=
  firstIdxFrom (fun j => decide (j < doc.length) && stopLine (doc.getD j [])) (i+1) 3

/-- `FxmlCodeLensProvider.provideCodeLenses`: one entry
`(annotation line, controller, member, isMethod)` per annotated member of
the document. -/
def provideCodeLenses (doc : List (List Char)) :
    List (Nat × List Char × List Char × Bool) :=
  if containsStr (docText doc) (str "javafx.fxml.FXML") then
    match getFullyQualifiedClassName doc with
    | none => []
    | some cn =>
      (List.range doc.length).filterMap (fun i =>
        if isFxmlLine (doc.getD i []) then
          match findMemberLineFwd doc i with
          | none => none
          | some ml =>
            let mlt := doc.getD ml []
            match extractMemberName mlt with
            | none => none
            | some name => some (i, cn, name, isMethodDeclaration mlt name)
        else none)
  else []

/-! ## Model definitions used to state amended or preference claims -/

/-- Window predicate realised by the `fxmlAnnotationLine` tracker of
`findMemberInJavaFile`: one of the lines `i-2`, `i-1`, `i` of the document
starts (trimmed) with the marker annotation. -/
def annWindow (doc : List (List Char)) (i : Nat) : Bool :=
  isFxmlLine (doc.getD i []) ||
  (decide (1 ≤ i) && isFxmlLine (doc.getD (i-1) [])) ||
  (decide (2 ≤ i) && isFxmlLine (doc.getD (i-2) []))

/-- Declarative model of the member-preference rule: the first structural
match lying in the annotation window wins; only if no such match exists
anywhere is the first structural match overall returned. -/
def memberPreferenceModel (name : List Char) (isMethod : Bool)
    (doc : List (List Char)) : Option (Nat × Nat) :=
  match firstIdxFrom (fun i => (structMatchIdx name isMethod (doc.getD i [])).isSome &&
      annWindow doc i) 0 doc.length with
  | some i => (structMatchIdx name isMethod (doc.getD i [])).map (fun c => (i, c))
  | none =>
    match firstIdxFrom (fun i => (structMatchIdx name isMethod (doc.getD i [])).isSome)
        0 doc.length with
    | some i => (structMatchIdx name isMethod (doc.getD i [])).map (fun c => (i, c))
    | none => none

/-- Declarative model of the document scan of `findInFxmlFiles`: the first
document (in discovery order) that both references the controller and
contains the sought attribute supplies the result; referencing documents
without the attribute are skipped. -/
def firstReferencingMatchModel (controllerClassName memberName : List Char)
    (isMethod : Bool) (docs : List (List (List Char))) : Option (Nat × Nat × Nat) :=
  match firstIdxFrom (fun j => referencesController controllerClassName (docs.getD j []) &&
      (searchMemberInFxmlDoc memberName isMethod (docs.getD j [])).isSome) 0 docs.length with
  | some j => (searchMemberInFxmlDoc memberName isMethod (docs.getD j [])).map
      (fun lc => (j, lc.1, lc.2))
  | none => none

/-- Left-maximality of an identifier-shaped run starting at `s`: no
position before `s` starts an identifier-shaped run of class characters
reaching `s`. -/
def noLeftExtension (l : List Char) (s : Nat) : Bool :=
  (List.range s).all (fun p => !(idFirst (l.getD p ' ') &&
    (List.range (s - p)).all (fun d => idRest (l.getD (p + d) ' '))))

/-! ## Concrete documents used by counterexamples and witnesses -/

/-- Markup document with an event-handler attribute for `handleClick`. -/
def c1doc : List (List Char) := [str "<Button onAction=\"#handleClick\"/>"]

/-- Markup document referencing `pkg.C` without the field attribute. -/
def c2doc0 : List (List Char) :=
  [str "<AnchorPane fx:controller=\"pkg.C\">", str "</AnchorPane>"]

/-- Markup document referencing `pkg.C` with the field attribute. -/
def c2doc1 : List (List Char) :=
  [str "<AnchorPane fx:controller=\"pkg.C\">", str "<Button fx:id=\"f\"/>",
   str "</AnchorPane>"]

/-- Source line carrying the marker token only inside a trailing comment. -/
def c5line : List Char := str "private int x; // @FXML"

/-- Source document whose second line carries a mid-line marker token. -/
def c5doc : List (List Char) := [str "int a; // @FXML", str "int b;"]

/-- Formatter input with an unterminated comment. -/
def c9input : List Char := str "a<!--"

/-- Formatting options: four-space indentation. -/
def c9opts : FormattingOptions := ⟨true, 4⟩

/-- Source document without the marker import. -/
def c10docA : List (List Char) :=
  [str "package p;", str "class C \x7b", str "@FXML", str "private Button b;", str "\x7d"]

/-- Source document with the marker import but no type declaration. -/
def c10docB : List (List Char) :=
  [str "import javafx.fxml.FXML;", str "@FXML", str "private Button b;"]

/-- Source document for exercising source-side failure paths. -/
def c8doc : List (List Char) :=
  [str "class C \x7b", str "@FXML", str "private Button x;"]

/-! ## Helper lemmas about the index scanner -/

theorem firstIdxFrom_none_iff (P : Nat → Bool) (i fuel : Nat) :
    firstIdxFrom P i fuel = none ↔ ∀ j, i ≤ j → j < i + fuel → P j = false := by
  induction fuel generalizing i with
  | zero =>
    constructor
    · intro _ j h1 h2; omega
    · intro _; rfl
  | succ f ih =>
    simp only [firstIdxFrom]
    by_cases hp : P i
    · simp only [hp, if_true]
      constructor
      · intro h; cases h
      · intro hall
        have := hall i le_rfl (by omega)
        rw [hp] at this; cases this
    · simp only [hp, Bool.false_eq_true, if_false]
      rw [ih]
      constructor
      · intro h j h1 h2
        rcases Nat.eq_or_lt_of_le h1 with rfl | hlt
        · simpa using hp
        · exact h j hlt (by omega)
      · intro h j h1 h2
        exact h j (by omega) (by omega)

theorem firstIdxFrom_some {P : Nat → Bool} {i fuel j : Nat}
    (h : firstIdxFrom P i fuel = some j) :
    P j = true ∧ i ≤ j ∧ j < i + fuel ∧ ∀ q, i ≤ q → q < j → P q = false := by
  induction fuel generalizing i with
  | zero => cases h
  | succ f ih =>
    simp only [firstIdxFrom] at h
    by_cases hp : P i
    · simp only [hp, if_true, Option.some.injEq] at h
      subst h
      exact ⟨hp, le_rfl, by omega, fun q hq1 hq2 => by omega⟩
    · simp only [hp, if_false] at h
      obtain ⟨h1, h2, h3, h4⟩ := ih h
      refine ⟨h1, by omega, by omega, fun q hq1 hq2 => ?_⟩
      rcases Nat.eq_or_lt_of_le hq1 with rfl | hlt
      · simpa using hp
      · exact h4 q hlt hq2

theorem firstIdxFrom_eq_some {P : Nat → Bool} {i fuel j : Nat}
    (hj : P j = true) (hij : i ≤ j) (hub : j < i + fuel)
    (hmin : ∀ q, i ≤ q → q < j → P q = false) :
    firstIdxFrom P i fuel = some j := by
  induction fuel generalizing i with
  | zero => omega
  | succ f ih =>
    simp only [firstIdxFrom]
    rcases Nat.eq_or_lt_of_le hij with rfl | hlt
    · simp [hj]
    · have hpi : P i = false := hmin i le_rfl hlt
      simp only [hpi, if_false, Bool.false_eq_true]
      exact ih (by omega) (by omega) (fun q hq1 hq2 => hmin q (by omega) hq2)

theorem firstIdxFrom_succ_right (P : Nat → Bool) (i fuel : Nat) :
    firstIdxFrom P i (fuel+1) =
      match firstIdxFrom P i fuel with
      | some j => some j
      | none => if P (i + fuel) then some (i + fuel) else none := by
  induction fuel generalizing i with
  | zero => simp [firstIdxFrom]
  | succ f ih =>
    conv_lhs => rw [firstIdxFrom]
    by_cases hp : P i
    · simp [firstIdxFrom, hp]
    · rw [ih (i+1)]
      simp only [firstIdxFrom, hp, if_false, Bool.false_eq_true]
      have : i + 1 + f = i + (f + 1) := by omega
      rw [this]

/-! ## General helper lemmas -/

theorem ne_true_of_eq_false {b : Bool} (h : b = false) : ¬b = true := by
  simp [h]

theorem getD_of_isPrefixOf_drop {p l : List Char} {j : Nat}
    (h : p.isPrefixOf (l.drop j) = true) {k : Nat} (hk : k < p.length) (d : Char) :
    l.getD (j + k) d = p.getD k d := by
  rw [List.isPrefixOf_iff_prefix] at h
  obtain ⟨t, ht⟩ := h
  have h1 : l.getD (j + k) d = (l.drop j).getD k d := by
    simp [List.getD_eq_getElem?_getD, List.getElem?_drop]
  rw [h1, ← ht]
  simp [List.getD_eq_getElem?_getD, List.getElem?_append, hk]

theorem startsFXML_at {l : List Char} (h : startsFXML l = true) :
    (str "@").isPrefixOf (trim l) = true := by
  simp only [startsFXML] at h
  rw [List.isPrefixOf_iff_prefix] at h ⊢
  exact List.IsPrefix.trans (List.isPrefixOf_iff_prefix.mp (by decide)) h

/-! ## C9 — formatter idempotence (code bug) -/

/-- C9 (code bug): the markup formatter is not idempotent.  On an input
with an unterminated comment the tokenizer pushes the accumulated text
twice, so formatting the already-formatted text duplicates it again and
the range formatter returns a non-empty edit for a formatter output. -/
theorem formatXml_not_idempotent :
    formatXml c9opts c9input = str "a\na\n<!--\n" ∧
    formatXml c9opts (formatXml c9opts c9input) = str "a\na\na\na\n<!--\n" ∧
    formatXml c9opts (formatXml c9opts c9input) ≠ formatXml c9opts c9input ∧
    formatRange c9opts (formatXml c9opts c9input) ≠ none :=
  ⟨by decide, by decide, by decide, by decide⟩

/-! ## C10 — code-lens enumeration guards -/

/-- C10: the navigation-index enumeration is empty whenever the document
text lacks the marker import substring, and likewise whenever no
qualified class name is derivable. -/
theorem provideCodeLenses_requires_import_and_class (doc : List (List Char)) :
    (containsStr (docText doc) (str "javafx.fxml.FXML") = false →
      provideCodeLenses doc = []) ∧
    (getFullyQualifiedClassName doc = none → provideCodeLenses doc = []) := by
  constructor
  · intro h
    unfold provideCodeLenses
    rw [if_neg (by simp [h])]
  · intro h
    unfold provideCodeLenses
    by_cases hc : containsStr (docText doc) (str "javafx.fxml.FXML")
    · rw [if_pos hc, h]
    · rw [if_neg hc]

/-- Witness for C10 at two concrete documents: one with annotated members
but no marker import, one with the import but no type declaration. -/
theorem provideCodeLenses_requires_import_and_class_witness :
    provideCodeLenses c10docA = [] ∧ provideCodeLenses c10docB = [] :=
  ⟨(provideCodeLenses_requires_import_and_class c10docA).1 (by decide),
   (provideCodeLenses_requires_import_and_class c10docB).2 (by decide)⟩

/-! ## C4 — backward annotation-association window -/

/-- C4: `isFxmlAnnotated` is true for a declaration one line after a
marker line, true two lines after the marker with another annotation line
between, false when neither of the two preceding lines starts (trimmed)
with the marker — as with three or more separating non-annotation lines —
and the backward scan stops at the first non-blank non-annotation line,
the result then depending only on the current line. -/
theorem isFxmlAnnotated_window (doc : List (List Char)) (n : Nat) :
    (1 ≤ n → startsFXML (doc.getD (n-1) []) = true → isFxmlAnnotated doc n = true) ∧
    (2 ≤ n → (str "@").isPrefixOf (trim (doc.getD (n-1) [])) = true →
      startsFXML (doc.getD (n-2) []) = true → isFxmlAnnotated doc n = true) ∧
    (containsStr (doc.getD n []) (str "@FXML") = false →
      startsFXML (doc.getD (n-1) []) = false → startsFXML (doc.getD (n-2) []) = false →
      isFxmlAnnotated doc n = false) ∧
    (1 ≤ n → stopLine (doc.getD (n-1) []) = true →
      isFxmlAnnotated doc n = containsStr (doc.getD n []) (str "@FXML")) := by
  refine ⟨?_, ?_, ?_, ?_⟩
  · intro hn h1
    simp only [isFxmlAnnotated]
    by_cases hc : containsStr (doc.getD n []) (str "@FXML")
    · rw [if_pos hc]
    · rw [if_neg hc, if_pos hn, if_pos h1]
  · intro hn hat h2
    simp only [isFxmlAnnotated]
    by_cases hc : containsStr (doc.getD n []) (str "@FXML")
    · rw [if_pos hc]
    · have hn1 : 1 ≤ n := by omega
      rw [if_neg hc, if_pos hn1]
      by_cases h1 : startsFXML (doc.getD (n-1) [])
      · rw [if_pos h1]
      · have hstop : ¬stopLine (doc.getD (n-1) []) = true := by
          unfold stopLine
          rw [hat]
          simp
        rw [if_neg h1, if_neg hstop, if_pos hn, h2]
  · intro hc h1 h2
    simp only [isFxmlAnnotated]
    rw [if_neg (ne_true_of_eq_false hc)]
    by_cases hn : 1 ≤ n
    · rw [if_pos hn, if_neg (ne_true_of_eq_false h1)]
      by_cases hstop : stopLine (doc.getD (n-1) [])
      · rw [if_pos hstop]
      · rw [if_neg hstop]
        by_cases hn2 : 2 ≤ n
        · rw [if_pos hn2, h2]
        · rw [if_neg hn2]
    · rw [if_neg hn]
  · intro hn hstop
    simp only [isFxmlAnnotated]
    have h1 : ¬startsFXML (doc.getD (n-1) []) = true := by
      intro h
      have hat := startsFXML_at (l := doc.getD (n-1) []) h
      unfold stopLine at hstop
      rw [hat] at hstop
      simp at hstop
    by_cases hc : containsStr (doc.getD n []) (str "@FXML")
    · rw [if_pos hc, hc]
    · rw [Bool.not_eq_true] at hc
      rw [if_neg (ne_true_of_eq_false hc), if_pos hn, if_neg h1, if_pos hstop, hc]

/-- Witness for C4 at concrete documents exercising all four parts. -/
theorem isFxmlAnnotated_window_witness :
    isFxmlAnnotated [str "@FXML", str "private Button b;"] 1 = true ∧
    isFxmlAnnotated [str "    @FXML", str "    @Override", str "    void f() \x7b\x7d"] 2 = true ∧
    isFxmlAnnotated
      [str "@FXML", str "int a;", str "int b;", str "int c;", str "int d;"] 4 = false ∧
    isFxmlAnnotated [str "@FXML", str "int a;", str "int b;"] 2 =
      containsStr (str "int b;") (str "@FXML") :=
  ⟨(isFxmlAnnotated_window _ 1).1 (by omega) (by decide),
   (isFxmlAnnotated_window _ 2).2.1 (by omega) (by decide) (by decide),
   (isFxmlAnnotated_window _ 4).2.2.1 (by decide) (by decide) (by decide),
   (isFxmlAnnotated_window _ 2).2.2.2 (by omega) (by decide)⟩

/-! ## C5 — marker recognition sites -/

/-- C5 counterexample: a line containing the marker token only inside a
trailing comment — not as the leading token of its trimmed content — is
nonetheless treated as annotated by the source-side current-line check. -/
theorem isFxmlAnnotated_accepts_midline_marker :
    containsStr c5line (str "@FXML") = true ∧ startsFXML c5line = false ∧
    isFxmlAnnotated [c5line] 0 = true := by
  exact ⟨by decide, by decide, by decide⟩

/-- C5 amended: the marker is recognized only as the leading token of a
trimmed line at the tracking and backward-scan sites, but the current-line
check of source-side annotation detection accepts the token anywhere in
the line. -/
theorem marker_leading_except_current_line (l : List Char)
    (doc : List (List Char)) (n : Nat) :
    (containsStr l (str "@FXML") = true → startsFXML l = false → isFxmlLine l = false) ∧
    (containsStr (doc.getD n []) (str "@FXML") = true → isFxmlAnnotated doc n = true) ∧
    (1 ≤ n → containsStr (doc.getD n []) (str "@FXML") = false →
      startsFXML (doc.getD (n-1) []) = false → startsFXML (doc.getD (n-2) []) = false →
      isFxmlAnnotated doc n = false) := by
  refine ⟨?_, ?_, ?_⟩
  · intro _ h2
    exact h2
  · intro h
    simp only [isFxmlAnnotated]
    rw [if_pos h]
  · intro hn hc h1 h2
    simp only [isFxmlAnnotated]
    rw [if_neg (ne_true_of_eq_false hc), if_pos hn, if_neg (ne_true_of_eq_false h1)]
    by_cases hstop : stopLine (doc.getD (n-1) [])
    · rw [if_pos hstop]
    · rw [if_neg hstop]
      by_cases hn2 : 2 ≤ n
      · rw [if_pos hn2, h2]
      · rw [if_neg hn2]

/-- Witness for C5's amended statement at concrete lines. -/
theorem marker_leading_except_current_line_witness :
    isFxmlLine c5line = false ∧ isFxmlAnnotated [c5line] 0 = true ∧
    isFxmlAnnotated c5doc 1 = false :=
  ⟨(marker_leading_except_current_line c5line [] 0).1 (by decide) (by decide),
   (marker_leading_except_current_line c5line [c5line] 0).2.1 (by decide),
   (marker_leading_except_current_line [] c5doc 1).2.2 (by omega) (by decide)
     (by decide) (by decide)⟩

/-! ## C7 — classifier precedence -/

/-- C7: bulk member-name extraction tries the method shape before the
field shape, each with its own keyword blacklist, so a line matching both
shapes — such as `doThing(x); int doThing = 1;` — is classified as the
method `doThing`. -/
theorem extractMemberName_method_precedence (l n : List Char) :
    (methodShapeName l = some n → n ∉ methodKeywords → extractMemberName l = some n) ∧
    extractMemberName (str "doThing(x); int doThing = 1;") = some (str "doThing") ∧
    isMethodDeclaration (str "doThing(x); int doThing = 1;") (str "doThing") = true := by
  refine ⟨?_, by decide, by decide⟩
  intro h hk
  simp [extractMemberName, h, hk]

/-- Witness for C7: the method-shape precedence applied at a concrete
line on which the field shape also matches. -/
theorem extractMemberName_method_precedence_witness :
    methodShapeName (str "foo(y); int z = 1;") = some (str "foo") ∧
    extractMemberName (str "foo(y); int z = 1;") = some (str "foo") :=
  ⟨by decide,
   (extractMemberName_method_precedence (str "foo(y); int z = 1;") (str "foo")).1
     (by decide) (by decide)⟩

/-! ## C1 — markup-side offset of event-handler resolution -/

/-- C1 counterexample: for the matching line the returned character offset
is 18, the position of the `#` marker, while the method name itself starts
at offset 19 — the claim's "identifier start" reading is false. -/
theorem findEventHandlerInFxml_lands_on_marker :
    findEventHandlerInFxml c1doc (str "handleClick") = some (0, 18) ∧
    (c1doc.getD 0 []).getD 18 ' ' = '#' ∧
    (str "handleClick").isPrefixOf ((c1doc.getD 0 []).drop 19) = true ∧
    (str "handleClick").isPrefixOf ((c1doc.getD 0 []).drop 18) = false := by
  exact ⟨by decide, by decide, by decide, by decide⟩

/-- C1 amended: the returned offset is exactly two characters past the
start of the `="` opener, i.e. the position of the `#` marker itself, one
character before the method-name start. -/
theorem findEventHandlerInFxml_offset_at_marker (doc : List (List Char))
    (m : List Char) (i c : Nat)
    (h : findEventHandlerInFxml doc m = some (i, c)) :
    2 ≤ c ∧
    ('=' :: '"' :: '#' :: (m ++ [ '"' ])).isPrefixOf ((doc.getD i []).drop (c - 2)) = true ∧
    (doc.getD i []).getD c ' ' = '#' := by
  unfold findEventHandlerInFxml findNeedleInDoc at h
  set needle := '=' :: '"' :: '#' :: (m ++ [ '"' ]) with hneedle
  rcases hf : firstIdxFrom (fun i => containsStr (doc.getD i []) needle) 0 doc.length
    with _ | i1
  · rw [hf] at h
    cases h
  · simp only [hf] at h
    rcases hio : firstIndexOf needle (doc.getD i1 []) with _ | c1
    · simp only [hio, Option.map_none'] at h
      cases h
    · simp only [hio, Option.map_some', Option.some.injEq, Prod.mk.injEq] at h
      obtain ⟨rfl, rfl⟩ := h
      unfold firstIndexOf at hio
      obtain ⟨hpref, -, -, -⟩ := firstIdxFrom_some hio
      have hlen : (2 : Nat) < needle.length := by
        rw [hneedle]
        simp only [List.length_cons, List.length_append, List.length_cons]
        omega
      refine ⟨by omega, ?_, ?_⟩
      · simpa using hpref
      · have hch : (doc.getD i1 []).getD (c1 + 2) ' ' = needle.getD 2 ' ' :=
          getD_of_isPrefixOf_drop (by simpa using hpref) hlen ' '
        rw [hch, hneedle]
        rfl

/-- Witness for C1's amended statement at the concrete markup document. -/
theorem findEventHandlerInFxml_offset_at_marker_witness :
    findEventHandlerInFxml c1doc (str "handleClick") = some (0, 18) ∧
    (2 ≤ 18 ∧
      ('=' :: '"' :: '#' :: (str "handleClick" ++ [ '"' ])).isPrefixOf
        ((c1doc.getD 0 []).drop 16) = true ∧
      (c1doc.getD 0 []).getD 18 ' ' = '#') :=
  ⟨by decide,
   findEventHandlerInFxml_offset_at_marker c1doc (str "handleClick") 0 18 (by decide)⟩

/-! ## C2 — first-match scanning across markup documents -/

/-- C2 counterexample: the first referencing markup document (`c2doc0`)
lacks the field attribute, yet the scan continues and the result comes
from the later referencing document `c2doc1` — so the first referencing
document does not determine the result and later documents do
contribute. -/
theorem findInFxmlFiles_continues_past_first_referencing_doc :
    referencesController (str "pkg.C") c2doc0 = true ∧
    findFxIdInFxml c2doc0 (str "f") = none ∧
    findInFxmlFiles (str "pkg.C") (str "f") false [c2doc0, c2doc1] = some (1, 1, 8) := by
  exact ⟨by decide, by decide, by decide⟩

theorem findInFxmlFilesGo_model (C m : List Char) (b : Bool)
    (docs : List (List (List Char))) :
    ∀ fuel i, i + fuel = docs.length →
      findInFxmlFilesGo C m b i (docs.drop i) =
        match firstIdxFrom (fun j => referencesController C (docs.getD j []) &&
            (searchMemberInFxmlDoc m b (docs.getD j [])).isSome) i fuel with
        | some j => (searchMemberInFxmlDoc m b (docs.getD j [])).map
            (fun lc => (j, lc.1, lc.2))
        | none => none := by
  intro fuel
  induction fuel with
  | zero =>
    intro i hi
    rw [List.drop_eq_nil_of_le (by omega)]
    rfl
  | succ f ih =>
    intro i hi
    have hlt : i < docs.length := by omega
    have hget : docs.getD i [] = docs[i] := List.getD_eq_getElem docs [] hlt
    rw [List.drop_eq_getElem_cons hlt]
    show findInFxmlFilesGo C m b i (docs[i] :: docs.drop (i+1)) = _
    rw [findInFxmlFilesGo, ← hget]
    by_cases href : referencesController C (docs.getD i [])
    · rw [if_pos href]
      rcases hs : searchMemberInFxmlDoc m b (docs.getD i []) with _ | ⟨ln, ch⟩
      · have hP : (referencesController C (docs.getD i []) &&
            (searchMemberInFxmlDoc m b (docs.getD i [])).isSome) = false := by
          rw [hs]
          simp
        show findInFxmlFilesGo C m b (i+1) (List.drop (i+1) docs) = _
        rw [ih (i+1) (by omega)]
        conv_rhs => rw [firstIdxFrom, if_neg (ne_true_of_eq_false hP)]
      · have hP : (referencesController C (docs.getD i []) &&
            (searchMemberInFxmlDoc m b (docs.getD i [])).isSome) = true := by
          rw [hs, href]
          simp
        conv_rhs => rw [firstIdxFrom, if_pos hP]
        show some (i, ln, ch) =
          (searchMemberInFxmlDoc m b (docs.getD i [])).map (fun lc => (i, lc.1, lc.2))
        rw [hs]
        rfl
    · have hP : (referencesController C (docs.getD i []) &&
          (searchMemberInFxmlDoc m b (docs.getD i [])).isSome) = false := by
        rw [Bool.not_eq_true] at href
        rw [href]
        simp
      rw [if_neg href]
      rw [ih (i+1) (by omega)]
      conv_rhs => rw [firstIdxFrom, if_neg (ne_true_of_eq_false hP)]

/-- C2 amended: the document scan of source-side resolution is equal to
the first-match model `firstReferencingMatchModel` — it stops at the first
markup document (in discovery order) that both references the controller
and contains the matching attribute, and skips referencing documents that
lack the attribute. -/
theorem findInFxmlFiles_first_match_model (C m : List Char) (b : Bool)
    (docs : List (List (List Char))) :
    findInFxmlFiles C m b docs = firstReferencingMatchModel C m b docs := by
  have h := findInFxmlFilesGo_model C m b docs docs.length 0 (by omega)
  rw [List.drop_zero] at h
  exact h

/-! ## C3 — annotated matches dominate earlier unannotated matches -/

theorem findMemberGo_model (name : List Char) (isMethod : Bool) (doc : List (List Char)) :
    ∀ fuel i annLine best,
      i + fuel = doc.length →
      (∀ a, annLine = some a → isFxmlLine (doc.getD a []) = true ∧ a < i ∧ i ≤ a + 3) →
      (∀ b2, b2 < i → i ≤ b2 + 3 → isFxmlLine (doc.getD b2 []) = true →
        ∃ a, annLine = some a ∧ b2 ≤ a) →
      (∀ j, j < i → ((structMatchIdx name isMethod (doc.getD j [])).isSome &&
        annWindow doc j) = false) →
      best = (match firstIdxFrom
            (fun j => (structMatchIdx name isMethod (doc.getD j [])).isSome) 0 i with
          | some j => (structMatchIdx name isMethod (doc.getD j [])).map (fun c => (j, c))
          | none => none) →
      findMemberGo name isMethod (doc.drop i) i annLine best =
        memberPreferenceModel name isMethod doc := by
  intro fuel
  induction fuel with
  | zero =>
    intro i annLine best hi h1 h2 hpre hbest
    have hieq : i = doc.length := by omega
    subst hieq
    rw [List.drop_eq_nil_of_le (by omega)]
    show best = _
    have hA : firstIdxFrom (fun j => (structMatchIdx name isMethod (doc.getD j [])).isSome &&
        annWindow doc j) 0 doc.length = none := by
      rw [firstIdxFrom_none_iff]
      intro j hj1 hj2
      exact hpre j (by omega)
    unfold memberPreferenceModel
    rw [hA]
    exact hbest
  | succ f ih =>
    intro i annLine best hi h1 h2 hpre hbest
    have hlt : i < doc.length := by omega
    have hget : doc.getD i [] = doc[i] := List.getD_eq_getElem doc [] hlt
    rw [List.drop_eq_getElem_cons hlt]
    show findMemberGo name isMethod (doc[i] :: doc.drop (i+1)) i annLine best = _
    rw [findMemberGo, ← hget]
    have F1 : ∀ a, updateAnn annLine (isFxmlLine (doc.getD i [])) i = some a →
        isFxmlLine (doc.getD a []) = true ∧ a ≤ i := by
      intro a ha
      unfold updateAnn at ha
      by_cases hfx : isFxmlLine (doc.getD i [])
      · rw [if_pos hfx] at ha
        cases ha
        exact ⟨hfx, le_rfl⟩
      · rw [if_neg hfx] at ha
        obtain ⟨hf, hai, -⟩ := h1 a ha
        exact ⟨hf, by omega⟩
    have F2 : ∀ b2, b2 ≤ i → i ≤ b2 + 2 → isFxmlLine (doc.getD b2 []) = true →
        ∃ a, updateAnn annLine (isFxmlLine (doc.getD i [])) i = some a ∧ b2 ≤ a := by
      intro b2 hb1 hb2 hfxb
      by_cases hfx : isFxmlLine (doc.getD i [])
      · exact ⟨i, by unfold updateAnn; rw [if_pos hfx], hb1⟩
      · rcases Nat.eq_or_lt_of_le hb1 with rfl | hblt
        · exact absurd hfxb hfx
        · obtain ⟨a, haeq, hba⟩ := h2 b2 hblt (by omega) hfxb
          refine ⟨a, ?_, hba⟩
          unfold updateAnn
          rw [if_neg hfx]
          exact haeq
    have Wt : annOk (updateAnn annLine (isFxmlLine (doc.getD i [])) i) i = true →
        annWindow doc i = true := by
      intro hOk
      unfold annOk at hOk
      rcases hae : updateAnn annLine (isFxmlLine (doc.getD i [])) i with _ | a
      · simp only [hae] at hOk
        exact absurd hOk Bool.false_ne_true
      · simp only [hae] at hOk
        have hia : i - a ≤ 2 := of_decide_eq_true hOk
        obtain ⟨hfxa, hai⟩ := F1 a hae
        have hcases : a = i ∨ (a = i - 1 ∧ 1 ≤ i) ∨ (a = i - 2 ∧ 2 ≤ i) := by omega
        unfold annWindow
        simp only [Bool.or_eq_true, Bool.and_eq_true, decide_eq_true_eq]
        rcases hcases with rfl | ⟨ha1, hi1⟩ | ⟨ha2, hi2⟩
        · exact Or.inl (Or.inl hfxa)
        · subst ha1
          exact Or.inl (Or.inr ⟨hi1, hfxa⟩)
        · subst ha2
          exact Or.inr ⟨hi2, hfxa⟩
    have Wf : annWindow doc i = true →
        annOk (updateAnn annLine (isFxmlLine (doc.getD i [])) i) i = true := by
      intro hW
      unfold annWindow at hW
      simp only [Bool.or_eq_true, Bool.and_eq_true, decide_eq_true_eq] at hW
      have hb2 : ∃ b2, b2 ≤ i ∧ i ≤ b2 + 2 ∧ isFxmlLine (doc.getD b2 []) = true := by
        rcases hW with (h | ⟨hi1, h⟩) | ⟨hi2, h⟩
        · exact ⟨i, le_rfl, by omega, h⟩
        · exact ⟨i - 1, by omega, by omega, h⟩
        · exact ⟨i - 2, by omega, by omega, h⟩
      obtain ⟨b2, hb1, hbu, hfxb⟩ := hb2
      obtain ⟨a, haeq, hba⟩ := F2 b2 hb1 hbu hfxb
      obtain ⟨-, hai⟩ := F1 a haeq
      unfold annOk
      rw [haeq]
      exact decide_eq_true (by omega)
    have W : annOk (updateAnn annLine (isFxmlLine (doc.getD i [])) i) i = annWindow doc i := by
      cases hOk : annOk (updateAnn annLine (isFxmlLine (doc.getD i [])) i) i
      · cases hW : annWindow doc i
        · rfl
        · rw [Wf hW] at hOk
          cases hOk
      · rw [Wt hOk]
    have h1' : ∀ a, resetAnn (updateAnn annLine (isFxmlLine (doc.getD i [])) i) i = some a →
        isFxmlLine (doc.getD a []) = true ∧ a < i + 1 ∧ i + 1 ≤ a + 3 := by
      intro a ha
      unfold resetAnn at ha
      rcases hae : updateAnn annLine (isFxmlLine (doc.getD i [])) i with _ | a0
      · simp only [hae] at ha
        exact absurd ha (by simp)
      · simp only [hae] at ha
        by_cases hgt : i - a0 > 2
        · rw [if_pos hgt] at ha
          cases ha
        · rw [if_neg hgt] at ha
          cases ha
          obtain ⟨hf, hai⟩ := F1 _ hae
          exact ⟨hf, by omega, by omega⟩
    have h2' : ∀ b2, b2 < i + 1 → i + 1 ≤ b2 + 3 → isFxmlLine (doc.getD b2 []) = true →
        ∃ a, resetAnn (updateAnn annLine (isFxmlLine (doc.getD i [])) i) i = some a ∧
          b2 ≤ a := by
      intro b2 hb1 hbu hfxb
      obtain ⟨a, haeq, hba⟩ := F2 b2 (by omega) (by omega) hfxb
      obtain ⟨-, hai⟩ := F1 a haeq
      refine ⟨a, ?_, hba⟩
      unfold resetAnn
      simp only [haeq]
      rw [if_neg (show ¬i - a > 2 by omega)]
    rcases hm : structMatchIdx name isMethod (doc.getD i []) with _ | c
    · show findMemberGo name isMethod (doc.drop (i+1)) (i+1)
        (resetAnn (updateAnn annLine (isFxmlLine (doc.getD i [])) i) i) best = _
      refine ih (i+1) _ best (by omega) h1' h2' ?_ ?_
      · intro j hj
        rcases Nat.lt_or_ge j i with hji | hji
        · exact hpre j hji
        · have hjeq : j = i := by omega
          subst hjeq
          rw [hm]
          rfl
      · rw [hbest]
        rw [firstIdxFrom_succ_right]
        have hPi : (structMatchIdx name isMethod (doc.getD (0 + i) [])).isSome = false := by
          rw [Nat.zero_add, hm]
          rfl
        rw [hPi]
        rcases hb : firstIdxFrom
            (fun j => (structMatchIdx name isMethod (doc.getD j [])).isSome) 0 i with _ | j
        · rfl
        · rfl
    · show (if annOk (updateAnn annLine (isFxmlLine (doc.getD i [])) i) i = true
          then some (i, c)
          else findMemberGo name isMethod (doc.drop (i+1)) (i+1)
            (resetAnn (updateAnn annLine (isFxmlLine (doc.getD i [])) i) i)
            (if best.isSome then best else some (i, c))) = _
      by_cases hW : annWindow doc i
      · rw [if_pos (by rw [W]; exact hW)]
        have hA : firstIdxFrom (fun j => (structMatchIdx name isMethod (doc.getD j [])).isSome &&
            annWindow doc j) 0 doc.length = some i := by
          apply firstIdxFrom_eq_some
          · rw [hm, hW]
            rfl
          · omega
          · omega
          · intro q hq1 hq2
            exact hpre q hq2
        unfold memberPreferenceModel
        rw [hA]
        show some (i, c) = (structMatchIdx name isMethod (doc.getD i [])).map (fun c => (i, c))
        rw [hm]
        rfl
      · rw [if_neg (by rw [W]; exact hW)]
        rw [Bool.not_eq_true] at hW
        refine ih (i+1) _ _ (by omega) h1' h2' ?_ ?_
        · intro j hj
          rcases Nat.lt_or_ge j i with hji | hji
          · exact hpre j hji
          · have hjeq : j = i := by omega
            subst hjeq
            rw [hW]
            simp
        · rw [hbest]
          rw [firstIdxFrom_succ_right]
          have hPi : (structMatchIdx name isMethod (doc.getD (0 + i) [])).isSome = true := by
            rw [Nat.zero_add, hm]
            rfl
          rw [hPi]
          rcases hb : firstIdxFrom
              (fun j => (structMatchIdx name isMethod (doc.getD j [])).isSome) 0 i with _ | j
          · show (some (i, c) : Option (Nat × Nat)) =
              (structMatchIdx name isMethod (doc.getD (0 + i) [])).map (fun c => (0 + i, c))
            rw [Nat.zero_add, hm]
            rfl
          · obtain ⟨hPj, -, -, -⟩ := firstIdxFrom_some hb
            show (if ((structMatchIdx name isMethod (doc.getD j [])).map
                  (fun c => (j, c))).isSome = true
                then (structMatchIdx name isMethod (doc.getD j [])).map (fun c => (j, c))
                else some (i, c)) =
              (structMatchIdx name isMethod (doc.getD j [])).map (fun c => (j, c))
            rcases hcj : structMatchIdx name isMethod (doc.getD j []) with _ | cj
            · rw [hcj] at hPj
              exact absurd hPj (by simp)
            · rfl

/-- C3: markup-to-source member resolution obeys the preference rule — an
annotated structural match (one within the 2-line window of a tracked
marker line) is returned at its first encounter, and the textually first
unannotated structural match is returned only when no annotated match
exists anywhere in the document. -/
theorem findMemberInJavaFile_preference (name : List Char) (isMethod : Bool)
    (doc : List (List Char)) :
    findMemberInJavaFile name isMethod doc = memberPreferenceModel name isMethod doc := by
  have h := findMemberGo_model name isMethod doc doc.length 0 none none (by omega)
    (fun a ha => by cases ha)
    (fun b2 hb _ _ => absurd hb (Nat.not_lt_zero b2))
    (fun j hj => absurd hj (Nat.not_lt_zero j))
    rfl
  rw [List.drop_zero] at h
  exact h

/-! ## C6 — keywords are never navigable symbols -/

theorem runLenP_lt (P : Char → Bool) (dflt : Char) :
    ∀ (xs : List Char) (d : Nat), d < runLenP P xs → P (xs.getD d dflt) = true := by
  intro xs
  induction xs with
  | nil =>
    intro d hd
    simp [runLenP] at hd
  | cons c cs ih =>
    intro d hd
    unfold runLenP at hd
    by_cases hc : P c
    · rw [if_pos hc] at hd
      cases d with
      | zero => rwa [List.getD_cons_zero]
      | succ d2 =>
        rw [List.getD_cons_succ]
        exact ih d2 (by omega)
    · rw [if_neg hc] at hd
      omega

theorem runLenP_eq_of (P : Char → Bool) (dflt : Char) :
    ∀ (xs : List Char) (n : Nat), n ≤ xs.length →
      (∀ d, d < n → P (xs.getD d dflt) = true) →
      (n = xs.length ∨ P (xs.getD n dflt) = false) →
      runLenP P xs = n := by
  intro xs
  induction xs with
  | nil =>
    intro n hn _ _
    simp only [List.length_nil] at hn
    simp [runLenP]
    omega
  | cons c cs ih =>
    intro n hn h1 h2
    cases n with
    | zero =>
      unfold runLenP
      rcases h2 with h | h
      · simp at h
      · rw [List.getD_cons_zero] at h
        rw [if_neg (ne_true_of_eq_false h)]
    | succ m =>
      have hc : P c = true := by
        have := h1 0 (by omega)
        rwa [List.getD_cons_zero] at this
      unfold runLenP
      rw [if_pos hc]
      have hm : runLenP P cs = m := by
        apply ih m (by simpa using hn)
        · intro d hd
          have := h1 (d+1) (by omega)
          rwa [List.getD_cons_succ] at this
        · rcases h2 with h | h
          · left
            simpa using h
          · right
            rwa [List.getD_cons_succ] at h
      omega

theorem getD_drop (l : List Char) (s d : Nat) (c : Char) :
    (l.drop s).getD d c = l.getD (s + d) c := by
  simp [List.getD_eq_getElem?_getD, List.getElem?_drop]

theorem searchEnd_some {l : List Char} {p : Nat} :
    ∀ {k e : Nat}, searchEnd l p k = some e →
      p < e ∧ e ≤ p + k ∧ boundaryAt l e = true := by
  intro k
  induction k with
  | zero =>
    intro e h
    cases h
  | succ k2 ih =>
    intro e h
    unfold searchEnd at h
    by_cases hb : boundaryAt l (p + k2 + 1)
    · rw [if_pos hb] at h
      cases h
      exact ⟨by omega, by omega, hb⟩
    · rw [if_neg hb] at h
      obtain ⟨h1, h2, h3⟩ := ih h
      exact ⟨h1, by omega, h3⟩

theorem attemptAt_some {l : List Char} {p e : Nat} (h : attemptAt l p = some e) :
    boundaryAt l p = true ∧ idFirst (l.getD p ' ') = true ∧ p < e ∧
      e ≤ p + runLenP idRest (l.drop p) ∧ boundaryAt l e = true := by
  unfold attemptAt at h
  by_cases hc : boundaryAt l p && idFirst (l.getD p ' ')
  · rw [if_pos hc] at h
    obtain ⟨h1, h2, h3⟩ := searchEnd_some h
    simp only [Bool.and_eq_true] at hc
    exact ⟨hc.1, hc.2, h1, h2, h3⟩
  · rw [if_neg hc] at h
    cases h

theorem javaKeywords_alpha : ∀ k ∈ javaKeywords, ∀ c ∈ k, c.isAlpha = true := by decide

theorem isAlpha_isWordChar {c : Char} (h : c.isAlpha = true) : isWordChar c = true := by
  unfold isWordChar Char.isAlphanum
  rw [h]
  rfl

theorem isWordChar_idRest {c : Char} (h : isWordChar c = true) : idRest c = true := by
  simp only [isWordChar, Bool.or_eq_true] at h
  simp only [idRest, Bool.or_eq_true]
  rcases h with h | h
  · exact Or.inl (Or.inl h)
  · exact Or.inl (Or.inr h)

theorem not_idRest_not_word {c : Char} (h : idRest c = false) : isWordChar c = false := by
  cases hx : isWordChar c
  · rfl
  · rw [isWordChar_idRest hx] at h
    cases h

/-- C6: whenever the maximal identifier-shaped run of the line covering
the cursor offset — the class-character run `[s, e)`, right-maximal by
`hright` and left-maximal by `hleft` — spells a reserved keyword,
`getMemberNameAtPosition` returns `none`: the token is never treated as a
navigable symbol. -/
theorem getMemberNameAtPosition_keyword_none
    (l : List Char) (off s e : Nat) (k : List Char)
    (hk : k ∈ javaKeywords)
    (hs : s ≤ off) (he : off < e) (hel : e ≤ l.length)
    (heq : (l.drop s).take (e - s) = k)
    (hleft : noLeftExtension l s = true)
    (hright : e = l.length ∨ idRest (l.getD e ' ') = false) :
    getMemberNameAtPosition l off = none := by
  have hkalpha : ∀ c ∈ k, c.isAlpha = true := javaKeywords_alpha k hk
  have hklen : k.length = e - s := by
    rw [← heq, List.length_take, List.length_drop]
    omega
  have hchar : ∀ d, d < e - s → l.getD (s + d) ' ' = k.getD d ' ' := by
    intro d hd
    rw [← getD_drop l s d ' ', ← heq]
    simp [List.getD_eq_getElem?_getD, List.getElem?_take, hd]
  have halpha : ∀ j, s ≤ j → j < e → (l.getD j ' ').isAlpha = true := by
    intro j hj1 hj2
    have hd : j - s < e - s := by omega
    have hc := hchar (j - s) hd
    rw [show s + (j - s) = j by omega] at hc
    rw [hc]
    have hlen : j - s < k.length := by omega
    rw [List.getD_eq_getElem k ' ' hlen]
    exact hkalpha _ (List.getElem_mem hlen)
  have hword : ∀ j, s ≤ j → j < e → isWordChar (l.getD j ' ') = true :=
    fun j h1 h2 => isAlpha_isWordChar (halpha j h1 h2)
  have hidr : ∀ j, s ≤ j → j < e → idRest (l.getD j ' ') = true :=
    fun j h1 h2 => isWordChar_idRest (hword j h1 h2)
  have hrun : runLenP idRest (l.drop s) = e - s := by
    apply runLenP_eq_of idRest ' ' (l.drop s) (e - s)
    · rw [List.length_drop]
      omega
    · intro d hd
      rw [getD_drop]
      exact hidr (s + d) (by omega) (by omega)
    · rcases hright with h | h
      · left
        rw [List.length_drop]
        omega
      · right
        rw [getD_drop, show s + (e - s) = e by omega]
        exact h
  have hnob : ∀ x, s < x → x < e → boundaryAt l x = false := by
    intro x hx1 hx2
    unfold boundaryAt
    rw [if_neg (show ¬x = 0 by omega)]
    rw [hword (x-1) (by omega) (by omega), hword x (by omega) hx2]
    rfl
  have hbe : boundaryAt l e = true := by
    unfold boundaryAt
    rw [if_neg (show ¬e = 0 by omega)]
    rw [hword (e-1) (by omega) (by omega)]
    have hnw : isWordChar (l.getD e ' ') = false := by
      rcases hright with h | h
      · rw [List.getD_eq_default _ _ (by omega)]
        rfl
      · exact not_idRest_not_word h
    rw [hnw]
    rfl
  have hcov : ∀ p ee, attemptAt l p = some ee → p ≤ off → off < ee →
      p = s ∧ ee = e := by
    intro p ee hat hp1 hp2
    obtain ⟨hbp, hif, hpe, heub, hbee⟩ := attemptAt_some hat
    have hcls : ∀ x, p ≤ x → x < ee → idRest (l.getD x ' ') = true := by
      intro x hx1 hx2
      have hxr : x - p < runLenP idRest (l.drop p) := by omega
      have hx := runLenP_lt idRest ' ' (l.drop p) (x - p) hxr
      rwa [getD_drop, show p + (x - p) = x by omega] at hx
    have hps : s ≤ p := by
      by_contra hlt
      push_neg at hlt
      unfold noLeftExtension at hleft
      rw [List.all_eq_true] at hleft
      have hthis := hleft p (List.mem_range.mpr hlt)
      rw [Bool.not_eq_true'] at hthis
      have hall : (List.range (s - p)).all (fun d => idRest (l.getD (p + d) ' ')) = true := by
        rw [List.all_eq_true]
        intro d hd
        rw [List.mem_range] at hd
        exact hcls (p + d) (by omega) (by omega)
      rw [hif, hall] at hthis
      cases hthis
    have hpeq : p = s := by
      rcases Nat.eq_or_lt_of_le hps with h | h
      · omega
      · exfalso
        have hb := hnob p h (by omega)
        rw [hb] at hbp
        exact Bool.false_ne_true hbp
    subst hpeq
    have heeub : ee ≤ e := by
      rw [hrun] at heub
      omega
    have heeq : ee = e := by
      rcases Nat.eq_or_lt_of_le heeub with h | h
      · exact h
      · exfalso
        have hb := hnob ee (by omega) h
        rw [hb] at hbee
        exact Bool.false_ne_true hbee
    exact ⟨rfl, heeq⟩
  have hloop : ∀ fuel p, gmnapGo l off p fuel = none := by
    intro fuel
    induction fuel with
    | zero =>
      intro p
      rfl
    | succ f ih =>
      intro p
      unfold gmnapGo
      rcases hn : nextMatchFrom l p with _ | ⟨s1, e1⟩
      · rfl
      · show (if off ≥ s1 ∧ off < e1 then
            (if (l.drop s1).take (e1 - s1) ∈ javaKeywords then none
             else some ((l.drop s1).take (e1 - s1)))
            else gmnapGo l off e1 f) = none
        have hat : attemptAt l s1 = some e1 := by
          unfold nextMatchFrom at hn
          rcases hq : firstIdxFrom (fun q => (attemptAt l q).isSome) p (l.length - p)
            with _ | q
          · rw [hq] at hn
            cases hn
          · simp only [hq] at hn
            rcases hat2 : attemptAt l q with _ | ee
            · simp only [hat2, Option.map_none'] at hn
              cases hn
            · simp only [hat2, Option.map_some', Option.some.injEq, Prod.mk.injEq] at hn
              obtain ⟨rfl, rfl⟩ := hn
              exact hat2
        by_cases hcover : off ≥ s1 ∧ off < e1
        · rw [if_pos hcover]
          obtain ⟨rfl, rfl⟩ := hcov s1 e1 hat hcover.1 hcover.2
          rw [heq, if_pos hk]
        · rw [if_neg hcover]
          exact ih e1
  unfold getMemberNameAtPosition
  exact hloop (l.length + 1) 0

/-- Witness for C6: the keyword `for` under the cursor in `x.for(` is not
treated as a navigable symbol. -/
theorem getMemberNameAtPosition_keyword_none_witness :
    (str "for") ∈ javaKeywords ∧ getMemberNameAtPosition (str "x.for(") 3 = none :=
  ⟨by decide,
   getMemberNameAtPosition_keyword_none (str "x.for(") 3 2 5 (str "for")
     (by decide) (by omega) (by omega) (by decide) (by decide) (by decide)
     (by decide)⟩

/-! ## C8 — every failure path of both resolvers yields none -/

/-- C8: definition resolution in both directions is a total function into
`Option`, and every failure path — no identifier or attribute at the
cursor, missing annotation, missing controller declaration, counterpart
file not found, no structural match — yields `none` rather than an error
or a partial location. -/
theorem provideDefinition_failure_paths (doc : List (List Char)) (line char : Nat)
    (fxmlDocs : List (List (List Char)))
    (javaFiles : List (List Char × List (List Char))) :
    (getMemberNameAtPosition (doc.getD line []) char = none →
      ctrlProvideDefinition doc line char fxmlDocs = none) ∧
    (isFxmlAnnotated doc line = false →
      ctrlProvideDefinition doc line char fxmlDocs = none) ∧
    (getFullyQualifiedClassName doc = none →
      ctrlProvideDefinition doc line char fxmlDocs = none) ∧
    (∀ mn cn, getMemberNameAtPosition (doc.getD line []) char = some mn →
      getFullyQualifiedClassName doc = some cn →
      findInFxmlFiles cn mn (isMethodDeclaration (doc.getD line []) mn) fxmlDocs = none →
      ctrlProvideDefinition doc line char fxmlDocs = none) ∧
    (ctrlAttrValueAt (doc.getD line []) char = none →
      eventAttrValueAt (doc.getD line []) char = none →
      fxIdAttrValueAt (doc.getD line []) char = none →
      fxmlProvideDefinition doc line char javaFiles = none) ∧
    (∀ cls, ctrlAttrValueAt (doc.getD line []) char = some cls →
      findFilesRel (classRelPath cls) javaFiles = [] →
      fxmlProvideDefinition doc line char javaFiles = none) ∧
    (findControllerInDocument doc = none →
      ctrlAttrValueAt (doc.getD line []) char = none →
      fxmlProvideDefinition doc line char javaFiles = none) ∧
    (∀ cn, ctrlAttrValueAt (doc.getD line []) char = none →
      eventAttrValueAt (doc.getD line []) char = none →
      findControllerInDocument doc = some cn →
      findFilesRel (classRelPath cn) javaFiles = [] →
      fxmlProvideDefinition doc line char javaFiles = none) ∧
    (∀ m cn, ctrlAttrValueAt (doc.getD line []) char = none →
      eventAttrValueAt (doc.getD line []) char = some m →
      findControllerInDocument doc = some cn →
      findFilesRel (classRelPath cn) javaFiles = [] →
      fxmlProvideDefinition doc line char javaFiles = none) ∧
    (∀ m cn p jdoc, ctrlAttrValueAt (doc.getD line []) char = none →
      eventAttrValueAt (doc.getD line []) char = some m →
      findControllerInDocument doc = some cn →
      (findFilesRel (classRelPath cn) javaFiles).head? = some (p, jdoc) →
      findMemberInJavaFile m true jdoc = none →
      fxmlProvideDefinition doc line char javaFiles = none) ∧
    (∀ fld cn p jdoc, ctrlAttrValueAt (doc.getD line []) char = none →
      eventAttrValueAt (doc.getD line []) char = none →
      fxIdAttrValueAt (doc.getD line []) char = some fld →
      findControllerInDocument doc = some cn →
      (findFilesRel (classRelPath cn) javaFiles).head? = some (p, jdoc) →
      findMemberInJavaFile fld false jdoc = none →
      fxmlProvideDefinition doc line char javaFiles = none) := by
  refine ⟨?_, ?_, ?_, ?_, ?_, ?_, ?_, ?_, ?_, ?_, ?_⟩
  · intro h
    simp only [ctrlProvideDefinition]
    rw [h]
  · intro h
    simp only [ctrlProvideDefinition]
    rcases hm : getMemberNameAtPosition (doc.getD line []) char with _ | mn
    · rfl
    · show (if isFxmlAnnotated doc line = true then
          (match getFullyQualifiedClassName doc with
           | none => none
           | some cn =>
             findInFxmlFiles cn mn (isMethodDeclaration (doc.getD line []) mn) fxmlDocs)
          else none) = none
      rw [if_neg (ne_true_of_eq_false h)]
  · intro h
    simp only [ctrlProvideDefinition]
    rcases hm : getMemberNameAtPosition (doc.getD line []) char with _ | mn
    · rfl
    · show (if isFxmlAnnotated doc line = true then
          (match getFullyQualifiedClassName doc with
           | none => none
           | some cn =>
             findInFxmlFiles cn mn (isMethodDeclaration (doc.getD line []) mn) fxmlDocs)
          else none) = none
      by_cases ha : isFxmlAnnotated doc line
      · rw [if_pos ha, h]
      · rw [if_neg ha]
  · intro mn cn hm hc hf
    simp only [ctrlProvideDefinition]
    rw [hm]
    show (if isFxmlAnnotated doc line = true then
        (match getFullyQualifiedClassName doc with
         | none => none
         | some cn =>
           findInFxmlFiles cn mn (isMethodDeclaration (doc.getD line []) mn) fxmlDocs)
        else none) = none
    by_cases ha : isFxmlAnnotated doc line
    · rw [if_pos ha, hc]
      exact hf
    · rw [if_neg ha]
  · intro h1 h2 h3
    simp only [fxmlProvideDefinition]
    rw [h1, h2, h3]
  · intro cls h1 hf
    simp only [fxmlProvideDefinition]
    rw [h1]
    show findControllerClass cls javaFiles = none
    unfold findControllerClass
    rw [hf]
    rfl
  · intro hcd h1
    simp only [fxmlProvideDefinition]
    rw [h1, hcd]
    rcases he : eventAttrValueAt (doc.getD line []) char with _ | m
    · rcases hf : fxIdAttrValueAt (doc.getD line []) char with _ | fld
      · rfl
      · rfl
    · rcases hf : fxIdAttrValueAt (doc.getD line []) char with _ | fld
      · rfl
      · rfl
  · intro cn h1 h2 hcd hf
    simp only [fxmlProvideDefinition]
    rw [h1, h2, hcd]
    rcases hfx : fxIdAttrValueAt (doc.getD line []) char with _ | fld
    · rfl
    · show findFieldInController cn fld javaFiles = none
      unfold findFieldInController
      rw [hf]
      rfl
  · intro m cn h1 h2 hcd hf
    simp only [fxmlProvideDefinition]
    rw [h1, h2, hcd]
    show findMethodInController cn m javaFiles = none
    unfold findMethodInController
    rw [hf]
    rfl
  · intro m cn p jdoc h1 h2 hcd hhead hmm
    simp only [fxmlProvideDefinition]
    rw [h1, h2, hcd]
    show findMethodInController cn m javaFiles = none
    unfold findMethodInController
    rw [hhead]
    show (findMemberInJavaFile m true jdoc).map (fun x => (p, x.1, x.2)) = none
    rw [hmm]
    rfl
  · intro fld cn p jdoc h1 h2 h3 hcd hhead hmm
    simp only [fxmlProvideDefinition]
    rw [h1, h2, h3, hcd]
    show findFieldInController cn fld javaFiles = none
    unfold findFieldInController
    rw [hhead]
    show (findMemberInJavaFile fld false jdoc).map (fun x => (p, x.1, x.2)) = none
    rw [hmm]
    rfl

/-- Witness for C8 at concrete inputs exercising six failure paths. -/
theorem provideDefinition_failure_paths_witness :
    ctrlProvideDefinition [str "int x;"] 0 0 [] = none ∧
    ctrlProvideDefinition c8doc 2 15 [] = none ∧
    fxmlProvideDefinition [str "<Pane/>"] 0 0 [] = none ∧
    fxmlProvideDefinition
      [str "<Pane fx:controller=\"p.C\">", str "<Button fx:id=\"b\"/>"] 1 16 [] = none ∧
    fxmlProvideDefinition
      [str "<Pane fx:controller=\"p.C\">", str "<Button onAction=\"#go\"/>"] 1 17
      [(str "p/C.java", [str "class C \x7b"])] = none ∧
    fxmlProvideDefinition
      [str "<Pane fx:controller=\"p.C\">", str "<Button fx:id=\"b\"/>"] 1 16
      [(str "p/C.java", [str "class C \x7b"])] = none :=
  ⟨(provideDefinition_failure_paths [str "int x;"] 0 0 [] []).2.1 (by decide),
   (provideDefinition_failure_paths c8doc 2 15 [] []).2.2.2.1 (str "x") (str "C")
     (by decide) (by decide) (by decide),
   (provideDefinition_failure_paths [str "<Pane/>"] 0 0 [] []).2.2.2.2.1
     (by decide) (by decide) (by decide),
   (provideDefinition_failure_paths
      [str "<Pane fx:controller=\"p.C\">", str "<Button fx:id=\"b\"/>"] 1 16
      [] []).2.2.2.2.2.2.2.1
     (str "p.C") (by decide) (by decide) (by decide) (by decide),
   (provideDefinition_failure_paths
      [str "<Pane fx:controller=\"p.C\">", str "<Button onAction=\"#go\"/>"] 1 17 []
      [(str "p/C.java", [str "class C \x7b"])]).2.2.2.2.2.2.2.2.2.1
     (str "go") (str "p.C") (str "p/C.java") [str "class C \x7b"]
     (by decide) (by decide) (by decide) (by decide) (by decide),
   (provideDefinition_failure_paths
      [str "<Pane fx:controller=\"p.C\">", str "<Button fx:id=\"b\"/>"] 1 16 []
      [(str "p/C.java", [str "class C \x7b"])]).2.2.2.2.2.2.2.2.2.2
     (str "b") (str "p.C") (str "p/C.java") [str "class C \x7b"]
     (by decide) (by decide) (by decide) (by decide) (by decide) (by decide)⟩

end JavafxSupport
